import Mathlib

set_option maxRecDepth 8000

/-!
Shallow embedding of the code-generation core of the huff-rs compiler
(src/huff_codegen/src/lib.rs) and verification of its specification claims.

Hex strings are modelled as `List Char` (one element per hex character),
byte offsets in `Nat`.  Fallible code returns `Except RunErr`, where a
`RunErr.panic` models a Rust panic (out-of-bounds slice or `unwrap` on
`None`), `RunErr.cg` a structured `CodegenError` (spans and offending
tokens, which never influence control flow, are elided and only the error
kind is kept), and `RunErr.outOfFuel` exhaustion of the explicit recursion
fuel used to embed the recursive macro expander.  Helper functions of
huff_utils that are not part of the sources (only src/huff_codegen and a
lexer test are available) are modelled from the spec and marked as such.
-/

namespace Huff

/-- Hex strings modelled as lists of characters. -/
abbrev Str := List Char

/-- Converts a Lean string literal to the character-list representation. -/
def S (s : String) : Str := s.data

/-- The sixteen lowercase hex digit characters. -/
def hexDigitChars : List Char := S "0123456789abcdef"

/-- Single lowercase hex digit character for a value below sixteen. -/
def hexChar (n : Nat) : Char := hexDigitChars.getD n 'f'

/-- Minimal hex digits of a number, most significant first; empty for zero.
The first argument is recursion fuel; any value at least the number works. -/
def hexAux : Nat → Nat → Str
  | 0, _ => []
  | f + 1, n => if n = 0 then [] else hexAux f (n / 16) ++ [hexChar (n % 16)]

/-- Minimal lowercase hex rendering of a number, mirroring Rust format `x`;
zero renders as the single character zero. -/
def hexMin (n : Nat) : Str := if n = 0 then S "0" else hexAux n n

/-- Left-pad with zero characters to at least the given character count,
mirroring the zero-padded minimum widths of Rust numeric formatting. -/
def padZeros (w : Nat) (s : Str) : Str := List.replicate (w - s.length) '0' ++ s

/-- Rust format `02x`: lowercase hex, zero-padded to at least two characters. -/
def hex2 (n : Nat) : Str := padZeros 2 (hexMin n)

/-- Rust format `04x`: lowercase hex, zero-padded to at least four characters. -/
def hex4 (n : Nat) : Str := padZeros 4 (hexMin n)

/-- Modelled from the spec: huff_utils `format_even_bytes` (not under src/) —
prepend a zero character if the hex string has odd length. -/
def format_even_bytes (s : Str) : Str := if s.length % 2 = 1 then '0' :: s else s

/-- Modelled from the spec: huff_utils `pad_n_bytes` (not under src/) —
left-pad a hex string with zeros to the given byte count, two characters
per byte. -/
def pad_n_bytes (s : Str) (n : Nat) : Str := padZeros (2 * n) s

/-- Modelled from the spec: huff_utils `bytes32_to_string` applied to a
literal (not under src/) — minimum-even-length lowercase hex of the
literal's value, zero rendering as two zero characters. -/
def bytes32_to_string (n : Nat) : Str := format_even_bytes (hexMin n)

/-- ASCII lowercasing, mirroring Rust `str::to_lowercase` on the ASCII
strings produced by this code. -/
def asciiLower (s : Str) : Str := s.map Char.toLower

/-- Deployment artifact fields produced by `churn`; the `file` and `abi`
fields do not interact with bytecode generation and are elided. -/
structure Artifact where
  bytecode : Str
  runtime : Str
deriving DecidableEq

/-- Source: `Codegen::churn` (src/huff_codegen/src/lib.rs, lines 708-741).
The ABI-encoded constructor arguments enter as their already hex-encoded
concatenation, since ABI encoding is delegated to an external library. -/
def churn (main_bytecode constructor_bytecode constructor_args : Str) : Artifact :=
  let contract_length := main_bytecode.length / 2
  let constructor_length := constructor_bytecode.length / 2
  let contract_size := hex4 contract_length
  let contract_code_offset := hex4 (13 + constructor_length)
  let bootstrap_code :=
    S "61" ++ contract_size ++ S "8061" ++ contract_code_offset ++ S "6000396000f3"
  let constructor_code := constructor_bytecode ++ bootstrap_code
  { bytecode := asciiLower (constructor_code ++ main_bytecode ++ constructor_args)
    runtime := asciiLower main_bytecode }

/-- Follows the spec's words for claim C2: a byte length rendered as exactly
four hex characters.  Compared against the source-derived `churn`. -/
def size16 (n : Nat) : Str :=
  [hexChar (n / 4096 % 16), hexChar (n / 256 % 16), hexChar (n / 16 % 16), hexChar (n % 16)]

/-- Follows the spec's words for claim C2: the deployment bytecode formula
`K || "61" || size16(M) || "80" || "61" || offset16(K) || "6000396000f3" || M || A`,
lower-cased. -/
def churnSpecBytecode (M K A : Str) : Str :=
  asciiLower (K ++ S "61" ++ size16 (M.length / 2) ++ S "80" ++ S "61" ++
    size16 (13 + K.length / 2) ++ S "6000396000f3" ++ M ++ A)

lemma hexAux_zero (f : Nat) : hexAux f 0 = [] := by
  cases f <;> simp [hexAux]

lemma hexAux_lt16 (f n : Nat) (h0 : 0 < n) (h1 : n < 16) (hf : 0 < f) :
    hexAux f n = [hexChar n] := by
  cases f with
  | zero => omega
  | succ g =>
    have hne : n ≠ 0 := by omega
    simp [hexAux, hne, Nat.div_eq_of_lt h1, hexAux_zero, Nat.mod_eq_of_lt h1]

lemma hexAux_lt256 (f n : Nat) (h0 : 16 ≤ n) (h1 : n < 256) (hf : 1 < f) :
    hexAux f n = [hexChar (n / 16), hexChar (n % 16)] := by
  cases f with
  | zero => omega
  | succ g =>
    have hne : n ≠ 0 := by omega
    have hd0 : 0 < n / 16 := Nat.div_pos h0 (by omega)
    have hd1 : n / 16 < 16 := by omega
    simp [hexAux, hne, hexAux_lt16 g (n / 16) hd0 hd1 (by omega)]

lemma hexAux_lt4096 (f n : Nat) (h0 : 256 ≤ n) (h1 : n < 4096) (hf : 2 < f) :
    hexAux f n = [hexChar (n / 256), hexChar (n / 16 % 16), hexChar (n % 16)] := by
  cases f with
  | zero => omega
  | succ g =>
    have hne : n ≠ 0 := by
      omega
    have hd0 : 16 ≤ n / 16 := by omega
    have hd1 : n / 16 < 256 := by omega
    have : hexAux g (n / 16) = [hexChar (n / 16 / 16), hexChar (n / 16 % 16)] :=
      hexAux_lt256 g (n / 16) hd0 hd1 (by omega)
    rw [Nat.div_div_eq_div_mul] at this
    simp [hexAux, hne, this]

lemma hexAux_lt65536 (f n : Nat) (h0 : 4096 ≤ n) (h1 : n < 65536) (hf : 3 < f) :
    hexAux f n =
      [hexChar (n / 4096), hexChar (n / 256 % 16), hexChar (n / 16 % 16), hexChar (n % 16)] := by
  cases f with
  | zero => omega
  | succ g =>
    have hne : n ≠ 0 := by omega
    have hd0 : 256 ≤ n / 16 := by omega
    have hd1 : n / 16 < 4096 := by omega
    have : hexAux g (n / 16) =
        [hexChar (n / 16 / 256), hexChar (n / 16 / 16 % 16), hexChar (n / 16 % 16)] :=
      hexAux_lt4096 g (n / 16) hd0 hd1 (by omega)
    rw [Nat.div_div_eq_div_mul, Nat.div_div_eq_div_mul] at this
    norm_num at this
    simp [hexAux, hne, this]

lemma hexChar_zero : hexChar 0 = '0' := by decide

/-- Below two bytes, the Rust `04x` padding renders exactly the four hex
characters the spec describes. -/
lemma hex4_eq_size16 (n : Nat) (h : n < 65536) : hex4 n = size16 n := by
  rcases Nat.eq_zero_or_pos n with h0 | h0
  · subst h0
    rfl
  have hne : n ≠ 0 := by omega
  by_cases h16 : n < 16
  · have h4096 : n / 4096 = 0 := Nat.div_eq_of_lt (by omega)
    have h256 : n / 256 = 0 := Nat.div_eq_of_lt (by omega)
    have hdiv : n / 16 = 0 := Nat.div_eq_of_lt h16
    simp [hex4, hexMin, padZeros, size16, hne, hexAux_lt16 n n h0 h16 h0,
      h4096, h256, hdiv, Nat.mod_eq_of_lt h16, hexChar_zero, List.replicate]
  by_cases h256 : n < 256
  · have h4096 : n / 4096 = 0 := Nat.div_eq_of_lt (by omega)
    have h256' : n / 256 = 0 := Nat.div_eq_of_lt (by omega)
    have hdlt : n / 16 < 16 := by omega
    simp [hex4, hexMin, padZeros, size16, hne,
      hexAux_lt256 n n (by omega) h256 (by omega),
      h4096, h256', Nat.mod_eq_of_lt hdlt, hexChar_zero, List.replicate]
  by_cases h4096 : n < 4096
  · have h4096' : n / 4096 = 0 := Nat.div_eq_of_lt (by omega)
    have hdlt : n / 256 < 16 := by omega
    simp [hex4, hexMin, padZeros, size16, hne,
      hexAux_lt4096 n n (by omega) h4096 (by omega),
      h4096', Nat.mod_eq_of_lt hdlt, hexChar_zero, List.replicate]
  · have hdlt : n / 4096 < 16 := by omega
    simp [hex4, hexMin, padZeros, size16, hne,
      hexAux_lt65536 n n (by omega) h (by omega),
      Nat.mod_eq_of_lt hdlt, List.replicate]

/-- Constant values: a 32-byte literal (its numeric value) or a
free storage pointer that should have been derived before codegen. -/
inductive ConstVal where
  | literal (value : Nat)
  | freeStoragePointer
deriving DecidableEq

/-- Constant definition from the contract AST. -/
structure ConstantDefinition where
  name : String
  value : ConstVal
deriving DecidableEq

/-- Arguments of a macro invocation. -/
inductive MacroArg where
  | literal (value : Nat)
  | argCall (name : String)
  | ident (name : String)
deriving DecidableEq

/-- A macro invocation statement: callee name plus ordered arguments. -/
structure MacroInvocation where
  macro_name : String
  args : List MacroArg
deriving DecidableEq

/-- Builtin function kinds understood by the expander. -/
inductive BuiltinFunctionKind where
  | codesize
  | tablesize
  | tablestart
deriving DecidableEq

/-- A builtin call: kind plus arguments, each argument carrying an optional
name (the source reads `bf.args[0].name.as_ref().unwrap()`). -/
structure BuiltinFunctionCall where
  kind : BuiltinFunctionKind
  args : List (Option String)
deriving DecidableEq

/-- Statement kinds that can appear in a macro body; `other` stands for the
remaining AST statement kinds, all of which the expander rejects with
`InvalidMacroStatement`. -/
inductive StatementType where
  | macroInvocation (mi : MacroInvocation)
  | label (name : String)
  | labelCall (name : String)
  | builtinFunctionCall (bf : BuiltinFunctionCall)
  | other
deriving DecidableEq

/-- A statement; only its type drives codegen (spans elided). -/
structure Statement where
  ty : StatementType
deriving DecidableEq

/-- Intermediate byte items of a macro body. -/
inductive IRByteType where
  | bytes (b : Str)
  | constant (name : String)
  | statement (s : Statement)
  | argCall (name : String)
deriving DecidableEq

/-- An IR byte item (spans elided). -/
structure IRByte where
  ty : IRByteType
deriving DecidableEq

/-- A macro definition: name, parameters (each with an optional identifier)
and the precomputed IR byte sequence that `to_irbytecode` yields. -/
structure MacroDefinition where
  name : String
  parameters : List (Option String)
  irBytes : List IRByte
deriving DecidableEq

/-- Table kinds: packed entries take 2 bytes, padded entries 32 bytes. -/
inductive TableKind where
  | jumpTablePacked
  | jumpTablePadded
deriving DecidableEq

/-- A jump table definition; `size` is the declared byte size (stored as a
32-byte literal in the AST, here its numeric value). -/
structure TableDefinition where
  name : String
  kind : TableKind
  size : Nat
  statements : List Statement
deriving DecidableEq

/-- The contract AST consumed by codegen. -/
structure Contract where
  macros : List MacroDefinition
  constants : List ConstantDefinition
  tables : List TableDefinition
deriving DecidableEq

/-- Modelled from the spec: `Contract::find_macro_by_name` (huff_utils, not
under src/) — first macro with the given name in the by-name index. -/
def Contract.find_macro_by_name (c : Contract) (name : String) : Option MacroDefinition :=
  c.macros.find? (fun m => m.name == name)

/-- Modelled from the spec: `Contract::find_table_by_name` (huff_utils, not
under src/) — first table with the given name. -/
def Contract.find_table_by_name (c : Contract) (name : String) : Option TableDefinition :=
  c.tables.find? (fun t => t.name == name)

/-- An unresolved jump: label plus the placeholder's bytecode index. -/
structure Jump where
  label : String
  bytecode_index : Nat
deriving DecidableEq

/-- Result of expanding one macro. -/
structure BytecodeRes where
  bytes : List (Nat × Str)
  label_indices : List (String × Nat)
  unmatched_jumps : List Jump
  table_instances : List Jump
deriving DecidableEq

/-- Structured codegen error kinds raised by the core (src error type with
spans and tokens elided). -/
inductive CodegenErrorKind where
  | missingMacroDefinition (name : String)
  | missingConstantDefinition (name : String)
  | storagePointersNotDerived
  | unmatchedJumpLabel
  | invalidMacroStatement
  | missingMacroInvocation (name : String)
  | ioError (msg : String)
deriving DecidableEq

/-- Runtime outcome classification: a structured codegen error, a Rust
panic (unwrap on None, out-of-range string slice), or fuel exhaustion of
the embedded recursion. -/
inductive RunErr where
  | cg (kind : CodegenErrorKind)
  | panic (msg : String)
  | outOfFuel
deriving DecidableEq

/-- Lookup in a string-keyed association map (models `HashMap` lookup). -/
def lookupStr {α : Type} (m : List (String × α)) (k : String) : Option α :=
  (m.find? (fun p => p.1 == k)).map (fun p => p.2)

/-- Insert with overwrite in a string-keyed map (models `HashMap::insert`). -/
def insertStr {α : Type} (m : List (String × α)) (k : String) (v : α) : List (String × α) :=
  (k, v) :: m.filter (fun p => !(p.1 == k))

/-- Lookup in a nat-keyed association map. -/
def lookupNat {α : Type} (m : List (Nat × α)) (k : Nat) : Option α :=
  (m.find? (fun p => p.1 == k)).map (fun p => p.2)

/-- Insert with overwrite in a nat-keyed map. -/
def insertNat {α : Type} (m : List (Nat × α)) (k : Nat) (v : α) : List (Nat × α) :=
  (k, v) :: m.filter (fun p => !(p.1 == k))

/-- Models `HashMap::extend`: insert every entry of the second map. -/
def extendStr {α : Type} (m child : List (String × α)) : List (String × α) :=
  child.foldl (fun acc p => insertStr acc p.1 p.2) m

/-- The expander-local jump table: placeholder code offset to jumps. -/
abbrev JumpTable := List (Nat × List Jump)

/-- Modelled from the spec: `Opcode::from_str` over the EVM mnemonic table
(huff_utils::evm, not under src/).  A representative subset of the mnemonic
table mapping each mnemonic to its one-byte hex encoding; none of the
identifiers used as labels or parameters in this development collide with
any real EVM mnemonic, and all general theorems take the lookup result as a
hypothesis rather than depending on the table's extent. -/
def opcodeFromStr (s : String) : Option Str :=
  lookupStr
    [("stop", S "00"), ("add", S "01"), ("mul", S "02"), ("sub", S "03"),
     ("div", S "04"), ("mod", S "06"), ("lt", S "10"), ("gt", S "11"),
     ("eq", S "14"), ("iszero", S "15"), ("and", S "16"), ("or", S "17"),
     ("xor", S "18"), ("not", S "19"), ("byte", S "1a"), ("shl", S "1b"),
     ("shr", S "1c"), ("calldataload", S "35"), ("calldatasize", S "36"),
     ("pop", S "50"), ("mload", S "51"), ("mstore", S "52"), ("sload", S "54"),
     ("sstore", S "55"), ("jump", S "56"), ("jumpi", S "57"), ("jumpdest", S "5b"),
     ("dup1", S "80"), ("dup2", S "81"), ("swap1", S "90"), ("swap2", S "91"),
     ("return", S "f3"), ("revert", S "fd")] s

/-- Hex encoding of the `PUSH2` opcode (0x5F + 2). -/
def push2Hex : Str := S "61"

/-- Hex encoding of the `JUMPDEST` opcode. -/
def jumpdestHex : Str := S "5b"

/-- The unfilled `PUSH2` placeholder emitted for label references. -/
def push2Placeholder : Str := push2Hex ++ S "xxxx"

/-- Push bytes for a literal value: `PUSH<N>` (0x5F + N) followed by the
minimum-even-length hex of the literal, as emitted at the three literal
push sites of the source. -/
def literalPushBytes (value : Nat) : Str :=
  hex2 (95 + (bytes32_to_string value).length / 2) ++ bytes32_to_string value

/-- Source: `Codegen::bubble_arg_call` (src/huff_codegen/src/lib.rs, lines
547-699).  The function mutates `bytes`, `offset` and `jump_table` through
mutable references; the model returns their updated values.  `scope` and
`mis` are only read (the recursive calls receive fresh copies, so the
caller's stacks are untouched).  The first argument is recursion fuel; the
Rust recursion strictly shrinks `scope`, so any fuel above `scope.length`
is enough.  Note two faithful quirks of the source: the recursion passes
the original `arg_name` (not the ArgCall's inner name), and the inner
`mis.last()` match repeats the outer, already successful, match. -/
def bubble_arg_call : Nat → String → List (Nat × Str) → MacroDefinition → Contract →
    List MacroDefinition → Nat → List (Nat × MacroInvocation) → JumpTable →
    Except RunErr (List (Nat × Str) × Nat × JumpTable)
  | 0, _, _, _, _, _, _, _, _ => .error .outOfFuel
  | fuel + 1, arg_name, bytes, macro_def, contract, scope, offset, mis, jump_table =>
    let starting_offset := offset
    match contract.constants.find? (fun cd => cd.name == arg_name) with
    | some constant =>
      match constant.value with
      | .literal l =>
        let push_bytes := literalPushBytes l
        .ok (bytes ++ [(starting_offset, push_bytes)], offset + push_bytes.length / 2, jump_table)
      | .freeStoragePointer => .error (.cg .storagePointersNotDerived)
    | none =>
      match opcodeFromStr arg_name with
      | some o =>
        .ok (bytes ++ [(starting_offset, o)], offset + o.length / 2, jump_table)
      | none =>
        match mis.getLast? with
        | some macro_invoc =>
          match macro_def.parameters.findIdx? (fun p => p == some arg_name) with
          | some pos =>
            match macro_invoc.2.args.get? pos with
            | some arg =>
              match arg with
              | .literal l =>
                let push_bytes := literalPushBytes l
                .ok (bytes ++ [(starting_offset, push_bytes)],
                  offset + push_bytes.length / 2, jump_table)
              | .argCall _ =>
                match scope.dropLast.getLast? with
                | none => .error (.panic "unwrap None: bubbled macro invocation")
                | some bubbled_macro_invocation =>
                  match mis.getLast? with
                  | none => .error (.cg (.missingMacroInvocation macro_def.name))
                  | some last_mi =>
                    if last_mi.2.macro_name == macro_def.name then
                      bubble_arg_call fuel arg_name bytes bubbled_macro_invocation contract
                        scope.dropLast offset mis.dropLast jump_table
                    else
                      bubble_arg_call fuel arg_name bytes bubbled_macro_invocation contract
                        scope.dropLast offset mis jump_table
              | .ident iden =>
                .ok (bytes ++ [(offset, push2Placeholder)], offset + 3,
                  insertNat jump_table offset [⟨iden, 0⟩])
            | none => .ok (bytes, offset, jump_table)
          | none => .ok (bytes, offset, jump_table)
        | none =>
          .ok (bytes ++ [(offset, push2Placeholder)], offset + 3,
            insertNat jump_table (((mis.getLast?).map (fun mi => mi.1)).getD 0)
              [⟨arg_name, 0⟩])

/-- Discriminator for run outcomes carrying the `MissingMacroInvocation`
error kind. -/
def isMissingMacroInvocationErr {α : Type} : Except RunErr α → Bool
  | .error (.cg (.missingMacroInvocation _)) => true
  | _ => false

/-- The `MissingMacroInvocation` exit of `bubble_arg_call` is dead code: the
branch that would produce it re-checks `mis.last()` inside a branch already
guarded by a successful `mis.last()` match, with no mutation in between. -/
lemma bubble_arg_call_never_missing_invocation (fuel : Nat) :
    ∀ (arg_name : String) (bytes : List (Nat × Str)) (macro_def : MacroDefinition)
      (contract : Contract) (scope : List MacroDefinition) (offset : Nat)
      (mis : List (Nat × MacroInvocation)) (jump_table : JumpTable),
      isMissingMacroInvocationErr
        (bubble_arg_call fuel arg_name bytes macro_def contract scope offset mis jump_table) =
        false := by
  induction fuel with
  | zero => intro arg_name bytes macro_def contract scope offset mis jump_table; rfl
  | succ f ih =>
    intro arg_name bytes macro_def contract scope offset mis jump_table
    rw [bubble_arg_call]
    repeat' split
    all_goals first
      | rfl
      | exact ih _ _ _ _ _ _ _ _
      | simp_all

/-- Push bytes emitted for `__codesize` (lines 396-404): the even-padded
02x rendering of the measured byte size, prefixed with the PUSH opcode for
its byte length. -/
def codesizePushBytes (size : Nat) : Str :=
  hex2 (95 + (format_even_bytes (hex2 size)).length / 2) ++ format_even_bytes (hex2 size)

/-- Push bytes emitted for `__tablesize` (lines 430-434): the table's
hex-rendered declared size prefixed with the PUSH opcode for its byte
length. -/
def tablesizePushBytes (size : Nat) : Str :=
  hex2 (95 + (bytes32_to_string size).length / 2) ++ bytes32_to_string size

/-- Expansion state threaded through the body loop of `macro_to_bytecode`:
the local working buffers plus the caller's `scope` and `mis` stacks, which
the source mutates through `&mut` references. -/
structure ExpState where
  bytes : List (Nat × Str)
  offset : Nat
  jump_table : JumpTable
  label_indices : List (String × Nat)
  table_instances : List Jump
  scope : List MacroDefinition
  mis : List (Nat × MacroInvocation)
deriving DecidableEq

/-- One step of the placeholder-filling fold of `macro_to_bytecode` (lines
489-540): for every jump registered at the chunk's starting offset, rewrite
the four characters after the PUSH2 opcode with the label's offset when the
label is known (Rust string slicing panics when the indices exceed the
chunk), otherwise record an unmatched jump keyed at the chunk offset. -/
def fillChunkJumps (label_indices : List (String × Nat)) (code_index : Nat) :
    List Jump → Str → Except RunErr (Str × List Jump)
  | [], fb => .ok (fb, [])
  | jump :: rest, fb =>
    match lookupStr label_indices jump.label with
    | some jump_index =>
      if jump.bytecode_index + 6 ≤ fb.length then
        fillChunkJumps label_indices code_index rest
          (fb.take (jump.bytecode_index + 2) ++ hex4 jump_index ++
            fb.drop (jump.bytecode_index + 6))
      else .error (.panic "string slice out of range: fill placeholder")
    | none =>
      match fillChunkJumps label_indices code_index rest fb with
      | .error e => .error e
      | .ok (fb2, um) => .ok (fb2, ⟨jump.label, code_index⟩ :: um)

/-- The placeholder-filling pass over all chunks, in order, collecting the
unmatched jumps in encounter order. -/
def fillPass (jump_table : JumpTable) (label_indices : List (String × Nat)) :
    List (Nat × Str) → Except RunErr (List (Nat × Str) × List Jump)
  | [] => .ok ([], [])
  | (code_index, fb) :: rest =>
    match (match lookupNat jump_table code_index with
           | some jumps => fillChunkJumps label_indices code_index jumps fb
           | none => .ok (fb, [])) with
    | .error e => .error e
    | .ok (fb2, um) =>
      match fillPass jump_table label_indices rest with
      | .error e => .error e
      | .ok (rest2, um2) => .ok ((code_index, fb2) :: rest2, um ++ um2)

/-- One iteration of the body loop of `macro_to_bytecode` (lines 208-478),
parameterized by the recursive expander `recur` (applied to the invoked or
measured macro, the updated scope, the current offset and the updated
invocation stack).  The bubble fuel `st.scope.length + 1` always suffices:
each bubbling step strictly shrinks the scope copy it recurses on. -/
def mtbStep (recur : MacroDefinition → List MacroDefinition → Nat →
      List (Nat × MacroInvocation) →
      Except RunErr (BytecodeRes × List MacroDefinition × List (Nat × MacroInvocation)))
    (contract : Contract) (macro_def : MacroDefinition) (ir_byte : IRByte)
    (st : ExpState) : Except RunErr ExpState :=
  match ir_byte.ty with
  | .bytes b =>
    .ok { st with
      offset := st.offset + b.length / 2
      bytes := st.bytes ++ [(st.offset, b)] }
  | .constant name =>
    match contract.constants.find? (fun cd => cd.name == name) with
    | none => .error (.cg (.missingConstantDefinition name))
    | some constant =>
      match constant.value with
      | .literal l =>
        .ok { st with
          offset := st.offset + (literalPushBytes l).length / 2
          bytes := st.bytes ++ [(st.offset, literalPushBytes l)] }
      | .freeStoragePointer => .error (.cg .storagePointersNotDerived)
  | .statement s =>
    match s.ty with
    | .macroInvocation mi =>
      match contract.find_macro_by_name mi.macro_name with
      | none => .error (.cg (.missingMacroDefinition mi.macro_name))
      | some invoked =>
        match recur invoked (st.scope ++ [invoked]) st.offset (st.mis ++ [(st.offset, mi)]) with
        | .error e => .error e
        | .ok (res, scope2, mis2) =>
          .ok { st with
            jump_table := res.unmatched_jumps.foldl
              (fun jt j =>
                insertNat jt j.bytecode_index
                  ((lookupNat jt j.bytecode_index).getD [] ++ [⟨j.label, 0⟩]))
              st.jump_table
            table_instances := st.table_instances ++ res.table_instances
            label_indices := extendStr st.label_indices res.label_indices
            offset := st.offset + (res.bytes.map (fun p => p.2.length)).sum / 2
            bytes := st.bytes ++ res.bytes
            scope := scope2
            mis := mis2 }
    | .label name =>
      .ok { st with
        label_indices := insertStr st.label_indices name st.offset
        bytes := st.bytes ++ [(st.offset, jumpdestHex)]
        offset := st.offset + 1 }
    | .labelCall name =>
      .ok { st with
        jump_table := insertNat st.jump_table st.offset [⟨name, 0⟩]
        bytes := st.bytes ++ [(st.offset, push2Placeholder)]
        offset := st.offset + 3 }
    | .builtinFunctionCall bf =>
      match bf.args.get? 0 with
      | none => .error (.panic "index out of bounds: builtin args")
      | some none => .error (.panic "unwrap None: builtin arg name")
      | some (some name) =>
        match bf.kind with
        | .codesize =>
          match contract.find_macro_by_name name with
          | none => .error (.cg (.missingMacroDefinition name))
          | some invoked =>
            match recur invoked st.scope st.offset st.mis with
            | .error e => .error e
            | .ok (res, scope2, mis2) =>
              .ok { st with
                offset := st.offset +
                  (codesizePushBytes ((res.bytes.map (fun p => p.2.length)).sum / 2)).length / 2
                bytes := st.bytes ++
                  [(st.offset, codesizePushBytes ((res.bytes.map (fun p => p.2.length)).sum / 2))]
                scope := scope2
                mis := mis2 }
        | .tablesize =>
          match contract.find_table_by_name name with
          | none => .error (.cg (.missingMacroDefinition name))
          | some table =>
            .ok { st with
              offset := st.offset + (tablesizePushBytes table.size).length / 2
              bytes := st.bytes ++ [(st.offset, tablesizePushBytes table.size)] }
        | .tablestart =>
          .ok { st with
            table_instances := st.table_instances ++ [⟨name, st.offset⟩]
            bytes := st.bytes ++ [(st.offset, push2Placeholder)]
            offset := st.offset + 3 }
    | .other => .error (.cg .invalidMacroStatement)
  | .argCall name =>
    match bubble_arg_call (st.scope.length + 1) name st.bytes macro_def contract st.scope
        st.offset st.mis st.jump_table with
    | .error e => .error e
    | .ok (bytes2, offset2, jt2) =>
      .ok { st with bytes := bytes2, offset := offset2, jump_table := jt2 }

/-- The body loop of `macro_to_bytecode`: fold `mtbStep` over the macro's
IR bytes, stopping at the first error. -/
def mtbLoop (recur : MacroDefinition → List MacroDefinition → Nat →
      List (Nat × MacroInvocation) →
      Except RunErr (BytecodeRes × List MacroDefinition × List (Nat × MacroInvocation)))
    (contract : Contract) (macro_def : MacroDefinition) :
    List IRByte → ExpState → Except RunErr ExpState
  | [], st => .ok st
  | ir :: rest, st =>
    match mtbStep recur contract macro_def ir st with
    | .error e => .error e
    | .ok st2 => mtbLoop recur contract macro_def rest st2

/-- Source: `Codegen::macro_to_bytecode` (lines 191-543), with explicit
recursion fuel (the Rust recursion is bounded only by the macro call graph;
every recursive call uses one unit).  Returns the `BytecodeRes` together
with the final values of the caller's `scope` and `mis` stacks. -/
def macro_to_bytecode : Nat → MacroDefinition → Contract → List MacroDefinition → Nat →
    List (Nat × MacroInvocation) →
    Except RunErr (BytecodeRes × List MacroDefinition × List (Nat × MacroInvocation))
  | 0, _, _, _, _, _ => .error .outOfFuel
  | fuel + 1, macro_def, contract, scope, offset, mis =>
    match mtbLoop (fun md sc off m => macro_to_bytecode fuel md contract sc off m)
        contract macro_def macro_def.irBytes ⟨[], offset, [], [], [], scope, mis⟩ with
    | .error e => .error e
    | .ok st =>
      match fillPass st.jump_table st.label_indices st.bytes with
      | .error e => .error e
      | .ok (bytes2, unmatched) =>
        .ok (⟨bytes2, st.label_indices, unmatched, st.table_instances⟩, st.scope,
          st.mis.dropLast)

/-- Rust `str::parse::<usize>` on the strings arising here: every character
must be a decimal digit. -/
def parseDec (s : Str) : Option Nat :=
  if s.isEmpty then none
  else if s.all Char.isDigit then
    some (s.foldl (fun acc c => acc * 10 + (c.toNat - 48)) 0)
  else none

/-- Table entry bytes for one table (lines 140-156): each LabelCall
statement contributes the referenced label's code offset padded to the
table's entry width (2 bytes packed, 32 bytes padded); other statements
contribute nothing; a label absent from `label_indices` hits an unchecked
`unwrap`. -/
def tableCode (label_indices : List (String × Nat)) (jt : TableDefinition) :
    List Statement → Except RunErr Str
  | [] => .ok []
  | s :: rest =>
    match s.ty with
    | .labelCall label =>
      match lookupStr label_indices label with
      | none => .error (.panic "unwrap None: table label offset")
      | some off =>
        match tableCode label_indices jt rest with
        | .error e => .error e
        | .ok restCode =>
          .ok (pad_n_bytes (format_even_bytes (hex2 off))
            (match jt.kind with | .jumpTablePacked => 2 | .jumpTablePadded => 32) ++ restCode)
    | _ => tableCode label_indices jt rest

/-- The table-appending fold of `gen_table_bytecode` (lines 133-159):
record each table's start offset, advance by the decimal parse of the
table's hex-rendered size (an unchecked `unwrap` when the parse fails),
and append the table's entry bytes. -/
def tablesFold (label_indices : List (String × Nat)) :
    List TableDefinition → Str → List (String × Nat) → Nat →
    Except RunErr (Str × List (String × Nat))
  | [], bytecode, table_offsets, _ => .ok (bytecode, table_offsets)
  | jt :: rest, bytecode, table_offsets, table_offset =>
    match parseDec (bytes32_to_string jt.size) with
    | none => .error (.panic "parse usize failed: table size")
    | some size =>
      match tableCode label_indices jt jt.statements with
      | .error e => .error e
      | .ok code =>
        tablesFold label_indices rest (bytecode ++ code)
          (insertStr table_offsets jt.name table_offset) (table_offset + size)

/-- The placeholder-patching fold of `gen_table_bytecode` (lines 161-176):
for each table instance whose label has a recorded offset, splice the
2-byte-padded offset over the four characters after the PUSH2 opcode (Rust
slicing panics when out of range); unknown labels are logged and left. -/
def instancesFold (table_offsets : List (String × Nat)) :
    List Jump → Str → Except RunErr Str
  | [], bytecode => .ok bytecode
  | jump :: rest, bytecode =>
    match lookupStr table_offsets jump.label with
    | some o =>
      if jump.bytecode_index * 2 + 6 ≤ bytecode.length then
        instancesFold table_offsets rest
          (bytecode.take (jump.bytecode_index * 2 + 2) ++ pad_n_bytes (hex2 o) 2 ++
            bytecode.drop (jump.bytecode_index * 2 + 6))
      else .error (.panic "string slice out of range: table instance")
    | none => instancesFold table_offsets rest bytecode

/-- Concatenation of the chunk strings of a `BytecodeRes`, as collected at
lines 104 and 129 of the source. -/
def resCode (res : BytecodeRes) : Str := (res.bytes.map (fun p => p.2)).flatten

/-- Source: `Codegen::gen_table_bytecode` (lines 110-179). -/
def gen_table_bytecode (res : BytecodeRes) (contract : Contract) : Except RunErr Str :=
  match res.unmatched_jumps with
  | _ :: _ => .error (.cg .unmatchedJumpLabel)
  | [] =>
    match tablesFold res.label_indices contract.tables (resCode res) []
        ((resCode res).length / 2) with
    | .error e => .error e
    | .ok (bytecode2, table_offsets) => instancesFold table_offsets res.table_instances bytecode2

/-- Source: `Codegen::generate_main_bytecode` (lines 72-87). -/
def generate_main_bytecode (fuel : Nat) (contract : Contract) : Except RunErr Str :=
  match contract.find_macro_by_name "MAIN" with
  | none => .error (.cg (.missingMacroDefinition "MAIN"))
  | some m =>
    match macro_to_bytecode fuel m contract [m] 0 [] with
    | .error e => .error e
    | .ok (res, _, _) => gen_table_bytecode res contract

/-- Source: `Codegen::generate_constructor_bytecode` (lines 90-106): note
the raw concatenation of the expander's chunks, with no call into
`gen_table_bytecode`. -/
def generate_constructor_bytecode (fuel : Nat) (contract : Contract) : Except RunErr Str :=
  match contract.find_macro_by_name "CONSTRUCTOR" with
  | none => .error (.cg (.missingMacroDefinition "CONSTRUCTOR"))
  | some m =>
    match macro_to_bytecode fuel m contract [m] 0 [] with
    | .error e => .error e
    | .ok (res, _, _) => .ok (resCode res)

/-- C3 counterexample: an identifier that is no constant, no opcode and not
found via parameter substitution, with an enclosing invocation recorded at
offset 5.  The claim mandates a PUSH2 placeholder (offset advancing from 0
to 3) registered at jump-table key 5; the resolver instead emits nothing
and leaves every buffer unchanged, because the label-call fallback is only
reachable when the invocation stack is empty. -/
theorem c3_counterexample :
    bubble_arg_call 9 "my_label" [] ⟨"D", [], []⟩ ⟨[], [], []⟩ [⟨"D", [], []⟩] 0
      [(5, ⟨"E", []⟩)] [] = .ok ([], 0, []) := by
  rfl

/-- C3 (amended): the label-call fallback fires only when no enclosing
invocation exists (the invocation stack is empty), and its jump-table key
is therefore always 0; when an enclosing invocation exists but the
identifier is not among the macro's parameters, the reference is skipped
without emitting anything. -/
theorem c3_arg_fallback_amended :
    (∀ (fuel : Nat) (arg_name : String) (bytes : List (Nat × Str))
      (macro_def : MacroDefinition) (contract : Contract) (scope : List MacroDefinition)
      (offset : Nat) (jump_table : JumpTable),
      contract.constants.find? (fun cd => cd.name == arg_name) = none →
      opcodeFromStr arg_name = none →
      bubble_arg_call (fuel + 1) arg_name bytes macro_def contract scope offset [] jump_table =
        .ok (bytes ++ [(offset, push2Placeholder)], offset + 3,
          insertNat jump_table 0 [⟨arg_name, 0⟩])) ∧
    (∀ (fuel : Nat) (arg_name : String) (bytes : List (Nat × Str))
      (macro_def : MacroDefinition) (contract : Contract) (scope : List MacroDefinition)
      (offset : Nat) (mis : List (Nat × MacroInvocation)) (mi : Nat × MacroInvocation)
      (jump_table : JumpTable),
      contract.constants.find? (fun cd => cd.name == arg_name) = none →
      opcodeFromStr arg_name = none →
      mis.getLast? = some mi →
      macro_def.parameters.findIdx? (fun p => p == some arg_name) = none →
      bubble_arg_call (fuel + 1) arg_name bytes macro_def contract scope offset mis jump_table =
        .ok (bytes, offset, jump_table)) := by
  constructor
  · intro fuel arg_name bytes macro_def contract scope offset jump_table h1 h2
    rw [bubble_arg_call]
    simp [h1, h2]
  · intro fuel arg_name bytes macro_def contract scope offset mis mi jump_table h1 h2 h3 h4
    rw [bubble_arg_call]
    simp [h1, h2, h3, h4]

/-- Witness for C3's amended statement at concrete inputs: an empty
invocation stack yields the placeholder at key 0; a non-empty stack with an
unknown identifier leaves everything unchanged. -/
theorem c3_arg_fallback_amended_witness :
    bubble_arg_call 9 "far_lbl" [] ⟨"D", [], []⟩ ⟨[], [], []⟩ [] 7 [] [] =
      .ok ([(7, push2Placeholder)], 10, insertNat [] 0 [⟨"far_lbl", 0⟩]) ∧
    bubble_arg_call 9 "far_lbl" [] ⟨"F", [], []⟩ ⟨[], [], []⟩ [] 1 [(4, ⟨"G", []⟩)] [] =
      .ok ([], 1, []) :=
  ⟨c3_arg_fallback_amended.1 8 "far_lbl" [] ⟨"D", [], []⟩ ⟨[], [], []⟩ [] 7 [] rfl rfl,
    c3_arg_fallback_amended.2 8 "far_lbl" [] ⟨"F", [], []⟩ ⟨[], [], []⟩ [] 1 [(4, ⟨"G", []⟩)]
      (4, ⟨"G", []⟩) [] rfl rfl rfl rfl⟩

/-- C9 (code bug): bubbling an ArgCall past the root of the scope stack hits
the unchecked `new_scope.last().unwrap()` and panics, while the structured
`MissingMacroInvocation` error the claim promises is dead code — its branch
re-checks `mis.last()` under a guard that already matched it as `Some`, so
no input at all produces that error kind (first conjunct). -/
theorem c9_bubble_panic_bug :
    (∀ (fuel : Nat) (arg_name : String) (bytes : List (Nat × Str))
      (macro_def : MacroDefinition) (contract : Contract) (scope : List MacroDefinition)
      (offset : Nat) (mis : List (Nat × MacroInvocation)) (jump_table : JumpTable),
      isMissingMacroInvocationErr
        (bubble_arg_call fuel arg_name bytes macro_def contract scope offset mis jump_table) =
        false) ∧
    bubble_arg_call 9 "x" [] ⟨"D", [some "x"], []⟩ ⟨[], [], []⟩ [⟨"D", [some "x"], []⟩] 0
      [(0, ⟨"E", [.argCall "y"]⟩)] [] =
      .error (.panic "unwrap None: bubbled macro invocation") :=
  ⟨fun fuel => bubble_arg_call_never_missing_invocation fuel, by rfl⟩

/-- List p is an initial segment of list l. -/
def isPrefOf {α : Type} (p l : List α) : Prop := ∃ t, p ++ t = l

lemma isPrefOf_refl {α : Type} (l : List α) : isPrefOf l l := ⟨[], List.append_nil l⟩

lemma isPrefOf_trans {α : Type} {p q r : List α} (h1 : isPrefOf p q) (h2 : isPrefOf q r) :
    isPrefOf p r := by
  obtain ⟨t1, ht1⟩ := h1
  obtain ⟨t2, ht2⟩ := h2
  exact ⟨t1 ++ t2, by rw [← List.append_assoc, ht1, ht2]⟩

lemma isPrefOf_append {α : Type} (l t : List α) : isPrefOf l (l ++ t) := ⟨t, rfl⟩

lemma take_isPrefOf {α : Type} (n : Nat) (l : List α) : isPrefOf (l.take n) l :=
  ⟨l.drop n, List.take_append_drop n l⟩

lemma isPrefOf_eq_take {α : Type} {p l : List α} (h : isPrefOf p l) : p = l.take p.length := by
  obtain ⟨t, ht⟩ := h
  rw [← ht, List.take_left]

lemma take_isPrefOf_take {α : Type} {m n : Nat} (l : List α) (h : m ≤ n) :
    isPrefOf (l.take m) (l.take n) := by
  refine ⟨(l.take n).drop m, ?_⟩
  have h2 : (l.take n).take m = l.take m := by
    rw [List.take_take, Nat.min_eq_left h]
  rw [← h2, List.take_append_drop]

lemma isPrefOf_length {α : Type} {p l : List α} (h : isPrefOf p l) : p.length ≤ l.length := by
  obtain ⟨t, ht⟩ := h
  rw [← ht, List.length_append]
  omega

lemma dropLast_isPrefOf_self {α : Type} (l : List α) : isPrefOf l.dropLast l := by
  rw [List.dropLast_eq_take]
  exact take_isPrefOf _ l

lemma isPrefOf_dropLast {α : Type} {p l : List α} (h : isPrefOf p l) :
    isPrefOf p.dropLast l.dropLast := by
  have hlen := isPrefOf_length h
  have hp := isPrefOf_eq_take h
  have h2 : p.dropLast = l.take (p.length - 1) := by
    conv_lhs => rw [List.dropLast_eq_take, hp]
    rw [List.take_take, List.length_take]
    congr 1
    omega
  rw [h2, List.dropLast_eq_take]
  exact take_isPrefOf_take l (by omega)

/-- Recursive expanders that, on success, return the invocation stack as an
initial segment of the input minus its last entry and only ever extend the
scope stack. -/
def StackTame (recur : MacroDefinition → List MacroDefinition → Nat →
    List (Nat × MacroInvocation) →
    Except RunErr (BytecodeRes × List MacroDefinition × List (Nat × MacroInvocation))) : Prop :=
  ∀ md sc off m res sc2 m2, recur md sc off m = .ok (res, sc2, m2) →
    isPrefOf m2 m.dropLast ∧ isPrefOf sc sc2

lemma mtbStep_stacks {recur} {contract : Contract} {macro_def : MacroDefinition}
    {ir : IRByte} {st st2 : ExpState} (hrec : StackTame recur)
    (h : mtbStep recur contract macro_def ir st = .ok st2) :
    isPrefOf st2.mis st.mis ∧ isPrefOf st.scope st2.scope := by
  unfold mtbStep at h
  repeat' split at h
  all_goals try exact Except.noConfusion h
  all_goals cases h
  all_goals try exact ⟨isPrefOf_refl _, isPrefOf_refl _⟩
  · rename_i res scope2 mis2 heq
    obtain ⟨hm, hs⟩ := hrec _ _ _ _ _ _ _ heq
    rw [List.dropLast_concat] at hm
    exact ⟨hm, isPrefOf_trans (isPrefOf_append st.scope _) hs⟩
  · rename_i res scope2 mis2 heq
    obtain ⟨hm, hs⟩ := hrec _ _ _ _ _ _ _ heq
    exact ⟨isPrefOf_trans hm (dropLast_isPrefOf_self _), hs⟩

lemma mtbLoop_stacks {recur} {contract : Contract} {macro_def : MacroDefinition}
    (hrec : StackTame recur) :
    ∀ (irs : List IRByte) (st st2 : ExpState),
      mtbLoop recur contract macro_def irs st = .ok st2 →
      isPrefOf st2.mis st.mis ∧ isPrefOf st.scope st2.scope := by
  intro irs
  induction irs with
  | nil =>
    intro st st2 h
    rw [mtbLoop] at h
    cases h
    exact ⟨isPrefOf_refl _, isPrefOf_refl _⟩
  | cons ir rest ih =>
    intro st st2 h
    rw [mtbLoop] at h
    split at h
    · exact Except.noConfusion h
    · rename_i stm heq
      obtain ⟨h1, h2⟩ := mtbStep_stacks hrec heq
      obtain ⟨h3, h4⟩ := ih stm st2 h
      exact ⟨isPrefOf_trans h3 h1, isPrefOf_trans h2 h4⟩

lemma mtb_stacks : ∀ (fuel : Nat) (macro_def : MacroDefinition) (contract : Contract)
    (scope : List MacroDefinition) (offset : Nat) (mis : List (Nat × MacroInvocation))
    (res : BytecodeRes) (scope2 : List MacroDefinition) (mis2 : List (Nat × MacroInvocation)),
    macro_to_bytecode fuel macro_def contract scope offset mis = .ok (res, scope2, mis2) →
    isPrefOf mis2 mis.dropLast ∧ isPrefOf scope scope2 := by
  intro fuel
  induction fuel with
  | zero =>
    intro md contract scope offset mis res scope2 mis2 h
    exact Except.noConfusion h
  | succ f ih =>
    intro md contract scope offset mis res scope2 mis2 h
    rw [macro_to_bytecode] at h
    split at h
    · exact Except.noConfusion h
    · rename_i st heqloop
      split at h
      · exact Except.noConfusion h
      · rename_i bytes2 unmatched heqfill
        cases h
        have hrec : StackTame (fun md2 sc off m => macro_to_bytecode f md2 contract sc off m) :=
          fun md2 sc off m res2 sc2 m2 hh => ih md2 contract sc off m res2 sc2 m2 hh
        obtain ⟨h1, h2⟩ :=
          mtbLoop_stacks hrec md.irBytes ⟨[], offset, [], [], [], scope, mis⟩ st heqloop
        exact ⟨isPrefOf_dropLast h1, h2⟩

/-- The single-macro program of scenario S3:
`MAIN { start: 0x00 start jump }`, with IR bytes as produced upstream
(JUMPDEST-recording label definition, push literal, label reference,
raw jump opcode). -/
def labelProgMain : MacroDefinition :=
  ⟨"MAIN", [], [⟨.statement ⟨.label "start"⟩⟩, ⟨.bytes (S "6000")⟩,
    ⟨.statement ⟨.labelCall "start"⟩⟩, ⟨.bytes (S "56")⟩]⟩

/-- Contract holding only `labelProgMain`. -/
def labelProgContract : Contract := ⟨[labelProgMain], [], []⟩

/-- C1: the placeholder-filling pass rewrites a `PUSH2 xxxx` label-reference
chunk whose jump is registered at its own offset to `PUSH2` followed by the
four hex characters of the label's recorded `label_indices` offset (first
conjunct, for any label map); concretely, `MAIN { start: 0x00 start jump }`
compiles to `5b600061000056` (second conjunct). -/
theorem c1_labelref_patching :
    (∀ (label_indices : List (String × Nat)) (code_index : Nat) (L : String) (n : Nat),
      lookupStr label_indices L = some n →
      fillChunkJumps label_indices code_index [⟨L, 0⟩] push2Placeholder =
        .ok (push2Hex ++ hex4 n, [])) ∧
    generate_main_bytecode 5 labelProgContract = .ok (S "5b600061000056") := by
  constructor
  · intro label_indices code_index L n hL
    have hl6 : push2Placeholder.length = 6 := rfl
    have ht : push2Placeholder.take 2 = push2Hex := rfl
    have hd : push2Placeholder.drop 6 = [] := rfl
    rw [fillChunkJumps, hL]
    simp [hl6, ht, hd, fillChunkJumps]
  · rfl

/-- Witness for C1's patching law at a concrete label map: label `start`
recorded at offset 0 rewrites the placeholder to `610000`. -/
theorem c1_labelref_patching_witness :
    fillChunkJumps [("start", 0)] 3 [⟨"start", 0⟩] push2Placeholder =
      .ok (push2Hex ++ hex4 0, []) :=
  c1_labelref_patching.1 [("start", 0)] 3 "start" 0 rfl

/-- A constructor macro whose body references an undefined label. -/
def ctorLeakMacro : MacroDefinition :=
  ⟨"CONSTRUCTOR", [], [⟨.statement ⟨.labelCall "nowhere"⟩⟩]⟩

/-- Contract holding only `ctorLeakMacro`. -/
def ctorLeakContract : Contract := ⟨[ctorLeakMacro], [], []⟩

/-- C4 counterexample: the constructor pipeline does not end in the layout
finalizer.  Expanding `CONSTRUCTOR { nowhere }` leaves the unmatched jump
`nowhere` (second conjunct), yet `generate_constructor_bytecode` returns
`Ok "61xxxx"` — the raw concatenation of the expander's bytes — instead of
failing with `UnmatchedJumpLabel` as the claim mandates. -/
theorem c4_counterexample :
    generate_constructor_bytecode 5 ctorLeakContract = .ok (S "61xxxx") ∧
    macro_to_bytecode 5 ctorLeakMacro ctorLeakContract [ctorLeakMacro] 0 [] =
      .ok (⟨[(0, push2Placeholder)], [], [⟨"nowhere", 0⟩], []⟩, [ctorLeakMacro], []) :=
  ⟨rfl, rfl⟩

/-- C4 (amended): `generate_constructor_bytecode` runs the macro expander
exactly like MAIN but then returns the raw concatenation of the expander's
chunk strings, without appending tables, patching table placeholders, or
checking `unmatched_jumps`; only the MAIN pipeline ends in
`gen_table_bytecode`. -/
theorem c4_constructor_raw_amended :
    ∀ (fuel : Nat) (contract : Contract) (cm : MacroDefinition) (res : BytecodeRes)
      (scope2 : List MacroDefinition) (mis2 : List (Nat × MacroInvocation)),
      contract.find_macro_by_name "CONSTRUCTOR" = some cm →
      macro_to_bytecode fuel cm contract [cm] 0 [] = .ok (res, scope2, mis2) →
      generate_constructor_bytecode fuel contract = .ok (resCode res) := by
  intro fuel contract cm res scope2 mis2 h1 h2
  simp [generate_constructor_bytecode, h1, h2]

/-- Witness for C4's amended statement: on the leaking constructor contract
the raw concatenation (with the placeholder intact) is returned. -/
theorem c4_constructor_raw_amended_witness :
    generate_constructor_bytecode 5 ctorLeakContract = .ok (S "61xxxx") :=
  c4_constructor_raw_amended 5 ctorLeakContract ctorLeakMacro
    ⟨[(0, push2Placeholder)], [], [⟨"nowhere", 0⟩], []⟩ [ctorLeakMacro] [] rfl rfl

/-- An empty macro A, invoked once by MAIN. -/
def invA : MacroDefinition := ⟨"A", [], []⟩

/-- MAIN whose body is the single invocation `A()`. -/
def invMain : MacroDefinition := ⟨"MAIN", [], [⟨.statement ⟨.macroInvocation ⟨"A", []⟩⟩⟩]⟩

/-- Contract with `invMain` and `invA`. -/
def invContract : Contract := ⟨[invMain, invA], [], []⟩

/-- C5 counterexample: after successfully expanding `MAIN { A() }` starting
from scope `[MAIN]` and an empty invocation stack, the caller-supplied
scope stack holds `[MAIN, A]` — the macro pushed for the invocation is
never popped — so the stacks do not return to their original lengths and
contents as the claim states. -/
theorem c5_counterexample :
    macro_to_bytecode 5 invMain invContract [invMain] 0 [] =
      .ok (⟨[], [], [], []⟩, [invMain, invA], []) :=
  rfl

/-- C5 (amended): on a successful return of `macro_to_bytecode`, the
caller's invocation stack comes back as an initial segment of the input
with at least its last entry removed (the callee's final pop consumes the
caller's entry, and `__codesize` recursions pop entries that were never
pushed), while the scope stack only ever grows: the input scope is an
initial segment of the output.  Nothing is restored exactly. -/
theorem c5_stack_effect_amended :
    ∀ (fuel : Nat) (macro_def : MacroDefinition) (contract : Contract)
      (scope : List MacroDefinition) (offset : Nat) (mis : List (Nat × MacroInvocation))
      (res : BytecodeRes) (scope2 : List MacroDefinition)
      (mis2 : List (Nat × MacroInvocation)),
      macro_to_bytecode fuel macro_def contract scope offset mis = .ok (res, scope2, mis2) →
      isPrefOf mis2 mis.dropLast ∧ isPrefOf scope scope2 :=
  fun fuel macro_def contract scope offset mis res scope2 mis2 h =>
    mtb_stacks fuel macro_def contract scope offset mis res scope2 mis2 h

/-- Witness for C5's amended statement on the concrete invocation program. -/
theorem c5_stack_effect_amended_witness :
    isPrefOf ([] : List (Nat × MacroInvocation)) ([] : List (Nat × MacroInvocation)).dropLast ∧
    isPrefOf [invMain] [invMain, invA] :=
  c5_stack_effect_amended 5 invMain invContract [invMain] 0 []
    ⟨[], [], [], []⟩ [invMain, invA] [] rfl

/-- C7 (code bug, spec-modelled `bytes32_to_string`): `gen_table_bytecode`
advances each table's start offset by the decimal re-reading of the
hex-rendered declared size, not by the declared size itself.  First
conjunct: a packed table of declared size 18 (nine 2-byte entries, hex
rendering `12`) advances the next table's recorded offset by 12, so the
`__tablestart` placeholder for the following table is patched to
`000f` (3 + 12) instead of `0015` (3 + 18).  Second conjunct: a declared
size of 10 renders as `0a`, whose decimal parse fails, panicking the
unchecked `unwrap`. -/
theorem c7_table_offset_bug :
    gen_table_bytecode ⟨[(0, push2Placeholder)], [("a", 0)], [], [⟨"t2", 0⟩]⟩
        ⟨[], [], [⟨"t1", .jumpTablePacked, 18, List.replicate 9 ⟨.labelCall "a"⟩⟩,
          ⟨"t2", .jumpTablePacked, 0, []⟩]⟩ =
      .ok (S "61000f" ++ List.replicate 36 '0') ∧
    gen_table_bytecode ⟨[], [], [], []⟩ ⟨[], [], [⟨"t3", .jumpTablePacked, 10, []⟩]⟩ =
      .error (.panic "parse usize failed: table size") := by
  constructor
  · rfl
  · rfl

/-- C2: for every main bytecode M, constructor bytecode K and ABI-encoded
constructor args A (as long as the two length fields fit in two bytes, so
that the spec's "4 hex chars" reading applies), `churn` produces the
deployment bytecode `K || "61" || size16(M) || "80" || "61" || offset16(K) ||
"6000396000f3" || M || A` lower-cased and sets the runtime to lower-cased M. -/
theorem c2_churn_formula (M K A : Str)
    (hM : M.length / 2 < 65536) (hK : 13 + K.length / 2 < 65536) :
    churn M K A = { bytecode := churnSpecBytecode M K A, runtime := asciiLower M } := by
  simp only [churn, churnSpecBytecode, hex4_eq_size16 _ hM, hex4_eq_size16 _ hK,
    asciiLower, List.map_append, List.append_assoc, S]
  constructor

/-- Witness for C2 at the spec's scenario S6: main `"ff"`, empty constructor,
no args gives deployment bytecode `6100018061000d6000396000f3ff`. -/
theorem c2_churn_formula_witness :
    churn (S "ff") (S "") (S "") =
      { bytecode := churnSpecBytecode (S "ff") (S "") (S ""), runtime := asciiLower (S "ff") } ∧
    churnSpecBytecode (S "ff") (S "") (S "") = S "6100018061000d6000396000f3ff" := by
  refine ⟨c2_churn_formula (S "ff") (S "") (S "") (by decide) (by decide), by decide⟩

/-- Discriminator for run outcomes carrying any structured codegen error
(as opposed to a modelled panic or fuel exhaustion). -/
def isCgErr {α : Type} : Except RunErr α → Bool
  | .error (.cg _) => true
  | _ => false

lemma tableCode_not_cg (li : List (String × Nat)) (jt : TableDefinition) :
    ∀ stmts, isCgErr (tableCode li jt stmts) = false := by
  intro stmts
  induction stmts with
  | nil => rfl
  | cons s rest ih =>
    rw [tableCode]
    repeat' split
    all_goals first
      | rfl
      | exact ih
      | (rename_i e heq; rw [← heq]; exact ih)

lemma tablesFold_not_cg (li : List (String × Nat)) :
    ∀ (tables : List TableDefinition) (bc : Str) (toff : List (String × Nat)) (off : Nat),
      isCgErr (tablesFold li tables bc toff off) = false := by
  intro tables
  induction tables with
  | nil => intro bc toff off; rfl
  | cons jt rest ih =>
    intro bc toff off
    rw [tablesFold]
    split
    · rfl
    · split
      · rename_i e heq
        have h2 := tableCode_not_cg li jt jt.statements
        rw [heq] at h2
        cases e with
        | cg k => exact absurd h2 (by simp [isCgErr])
        | panic m => rfl
        | outOfFuel => rfl
      · exact ih _ _ _

lemma instancesFold_not_cg (toff : List (String × Nat)) :
    ∀ (ins : List Jump) (bc : Str), isCgErr (instancesFold toff ins bc) = false := by
  intro ins
  induction ins with
  | nil => intro bc; rfl
  | cons j rest ih =>
    intro bc
    rw [instancesFold]
    repeat' split
    all_goals first
      | rfl
      | exact ih _

lemma gen_table_not_cg_of_empty (res : BytecodeRes) (contract : Contract)
    (h : res.unmatched_jumps = []) :
    isCgErr (gen_table_bytecode res contract) = false := by
  unfold gen_table_bytecode
  rw [h]
  split
  · rename_i j rest heq
    exact absurd heq (fun hh => List.noConfusion hh)
  · split
    · rename_i e heq
      have h2 := tablesFold_not_cg res.label_indices contract.tables (resCode res) []
        ((resCode res).length / 2)
      rw [heq] at h2
      cases e with
      | cg k => exact absurd h2 (by simp [isCgErr])
      | panic m => rfl
      | outOfFuel => rfl
    · exact instancesFold_not_cg _ res.table_instances _

/-- C8: the layout finalizer returns the `UnmatchedJumpLabel` error kind
exactly when the input carries a non-empty `unmatched_jumps` sequence; in
the non-empty case the guard fires before any bytecode is assembled, and
when the sequence is empty no structured codegen error can arise at all
(the remaining failure modes of the function are unchecked panics). -/
theorem c8_unmatched_jump_guard :
    ∀ (res : BytecodeRes) (contract : Contract),
      gen_table_bytecode res contract = .error (.cg .unmatchedJumpLabel) ↔
        res.unmatched_jumps.isEmpty = false := by
  intro res contract
  cases hu : res.unmatched_jumps with
  | nil =>
    have hno := gen_table_not_cg_of_empty res contract hu
    constructor
    · intro h
      rw [h] at hno
      exact absurd hno (by simp [isCgErr])
    · intro h
      simp [List.isEmpty] at h
  | cons j rest =>
    constructor
    · intro _
      simp [List.isEmpty]
    · intro _
      unfold gen_table_bytecode
      rw [hu]

/-- C10: when `unmatched_jumps` is empty (the only situation in which the
table-entry lookups are reached), `gen_table_bytecode` cannot return any
structured `CodegenError` (first conjunct); and on a table whose LabelRef
label has no `label_indices` entry the unchecked `unwrap` panic branch is
reached (second conjunct). -/
theorem c10_no_structured_error :
    (∀ (res : BytecodeRes) (contract : Contract),
      res.unmatched_jumps = [] → isCgErr (gen_table_bytecode res contract) = false) ∧
    gen_table_bytecode ⟨[], [], [], []⟩
        ⟨[], [], [⟨"t", .jumpTablePacked, 2, [⟨.labelCall "nope"⟩]⟩]⟩ =
      .error (.panic "unwrap None: table label offset") :=
  ⟨fun res contract h => gen_table_not_cg_of_empty res contract h, by rfl⟩

/-- Witness for C10 at a concrete input with an empty unmatched-jumps
sequence: the reached panic is not a structured codegen error. -/
theorem c10_no_structured_error_witness :
    isCgErr (gen_table_bytecode ⟨[], [], [], []⟩
      ⟨[], [], [⟨"t", .jumpTablePacked, 2, [⟨.labelCall "nope"⟩]⟩]⟩) = false :=
  c10_no_structured_error.1 ⟨[], [], [], []⟩
    ⟨[], [], [⟨"t", .jumpTablePacked, 2, [⟨.labelCall "nope"⟩]⟩]⟩ rfl

/-- Does the string start with four placeholder characters? -/
def startsWithXXXX (s : Str) : Bool := decide (s.take 4 = ['x', 'x', 'x', 'x'])

/-- Does the string contain the placeholder substring `xxxx`? -/
def containsXXXX : Str → Bool
  | [] => false
  | c :: rest => startsWithXXXX (c :: rest) || containsXXXX rest

/-- Does the string contain the placeholder character at all? -/
def hasX (s : Str) : Bool := s.any (fun c => c == 'x')

lemma containsXXXX_eq_false {s : Str} (h : hasX s = false) : containsXXXX s = false := by
  induction s with
  | nil => rfl
  | cons c rest ih =>
    have hc : (c == 'x') = false ∧ hasX rest = false := by
      simpa [hasX, Bool.or_eq_false_iff] using h
    rw [containsXXXX, ih hc.2, Bool.or_false]
    by_contra hsw
    rw [Bool.not_eq_false] at hsw
    have htake := of_decide_eq_true hsw
    have htake2 : c :: rest.take 3 = ['x', 'x', 'x', 'x'] := htake
    injection htake2 with h1 h2
    subst h1
    simp at hc

lemma mem_of_getElemQ {α : Type} {l : List α} {n : Nat} {a : α} (h : l[n]? = some a) :
    a ∈ l := by
  obtain ⟨hlt, he⟩ := List.getElem?_eq_some.mp h
  exact he ▸ List.getElem_mem hlt

lemma hexChar_ne_x (n : Nat) : hexChar n ≠ 'x' := by
  have hall : ∀ c ∈ hexDigitChars, c ≠ 'x' := by decide
  unfold hexChar
  rw [List.getD_eq_getElem?_getD]
  rcases h : hexDigitChars[n]? with _ | c
  · decide
  · exact hall c (mem_of_getElemQ h)

lemma hasX_hexAux (f : Nat) : ∀ n, hasX (hexAux f n) = false := by
  induction f with
  | zero => intro n; rfl
  | succ g ih =>
    intro n
    rw [hexAux]
    split
    · rfl
    · have h1 := ih (n / 16)
      rw [hasX] at h1
      rw [hasX, List.any_append, h1]
      simp [hexChar_ne_x]

lemma hasX_hexMin (n : Nat) : hasX (hexMin n) = false := by
  rw [hexMin]
  split
  · rfl
  · exact hasX_hexAux n n

lemma hasX_padZeros (w : Nat) (s : Str) (h : hasX s = false) : hasX (padZeros w s) = false := by
  rw [hasX] at h
  rw [padZeros, hasX, List.any_append, h, Bool.or_false, List.any_eq_false]
  intro c hc
  rw [List.mem_replicate] at hc
  simp [hc.2]

lemma hasX_hex2 (n : Nat) : hasX (hex2 n) = false := hasX_padZeros 2 _ (hasX_hexMin n)

lemma hasX_format_even (s : Str) (h : hasX s = false) :
    hasX (format_even_bytes s) = false := by
  rw [format_even_bytes]
  split
  · rw [hasX] at h
    rw [hasX, List.any_cons, h]
    rfl
  · exact h

lemma hasX_pad_n_bytes (s : Str) (n : Nat) (h : hasX s = false) :
    hasX (pad_n_bytes s n) = false := hasX_padZeros _ _ h

lemma hasX_tableCode (li : List (String × Nat)) (jt : TableDefinition) :
    ∀ stmts code, tableCode li jt stmts = .ok code → hasX code = false := by
  intro stmts
  induction stmts with
  | nil =>
    intro code h
    cases h
    rfl
  | cons s rest ih =>
    intro code h
    rw [tableCode] at h
    split at h
    · rename_i label hlab
      split at h
      · exact Except.noConfusion h
      · rename_i off hoff
        split at h
        · exact Except.noConfusion h
        · rename_i restCode heq
          cases h
          have h1 : ∀ w, hasX (pad_n_bytes (format_even_bytes (hex2 off)) w) = false :=
            fun w => hasX_pad_n_bytes _ w (hasX_format_even _ (hasX_hex2 off))
          have h1a := h1 (match jt.kind with | .jumpTablePacked => 2 | .jumpTablePadded => 32)
          have h2 := ih restCode heq
          rw [hasX] at h1a h2
          rw [hasX, List.any_append, h1a, h2]
          rfl
    · exact ih code h

lemma hexMin_length_le (n : Nat) (h : n < 65536) : (hexMin n).length ≤ 4 := by
  rcases Nat.eq_zero_or_pos n with h0 | h0
  · subst h0
    decide
  by_cases h16 : n < 16
  · rw [hexMin, if_neg (by omega), hexAux_lt16 n n h0 h16 h0]
    simp
  by_cases h256 : n < 256
  · rw [hexMin, if_neg (by omega), hexAux_lt256 n n (by omega) h256 (by omega)]
    simp
  by_cases h4096 : n < 4096
  · rw [hexMin, if_neg (by omega), hexAux_lt4096 n n (by omega) h4096 (by omega)]
    simp
  · rw [hexMin, if_neg (by omega), hexAux_lt65536 n n (by omega) h (by omega)]
    simp

lemma pad2_length (o : Nat) (h : o < 65536) : (pad_n_bytes (hex2 o) 2).length = 4 := by
  have h1 : (hexMin o).length ≤ 4 := hexMin_length_le o h
  rw [pad_n_bytes, hex2, padZeros, padZeros]
  simp only [List.length_append, List.length_replicate]
  omega

lemma find_filter_ne {α : Type} (k k' : String) (hkk : (k == k') = false) :
    ∀ (m : List (String × α)),
      (m.filter (fun p => !(p.1 == k))).find? (fun p => p.1 == k') =
        m.find? (fun p => p.1 == k') := by
  intro m
  induction m with
  | nil => rfl
  | cons a rest ih =>
    by_cases ha : (a.1 == k) = true
    · have ha1 : a.1 = k := by simpa using ha
      have ha' : (a.1 == k') = false := by
        rw [ha1]
        exact hkk
      rw [List.filter_cons, if_neg (by simp [ha]), ih]
      conv_rhs => rw [List.find?_cons]
      simp only [ha']
    · rw [List.filter_cons, if_pos (by simp [ha])]
      rw [List.find?_cons, List.find?_cons]
      cases hk2 : (a.1 == k') with
      | true => simp only [hk2]
      | false =>
        simp only [hk2]
        exact ih

lemma lookupStr_insertStr {α : Type} (m : List (String × α)) (k k' : String) (v : α) :
    lookupStr (insertStr m k v) k' = if k == k' then some v else lookupStr m k' := by
  rw [insertStr, lookupStr]
  rw [List.find?_cons]
  cases hk : (k == k') with
  | true =>
    simp only [hk]
    rfl
  | false =>
    simp only [hk]
    rw [find_filter_ne k k' hk, if_neg (by simp [hk])]
    rfl

/-- The byte sizes the table fold adds to the running offset, as parsed at
line 135 of the source. -/
def sumSizes (tables : List TableDefinition) : Nat :=
  (tables.map (fun t => (parseDec (bytes32_to_string t.size)).getD 0)).sum

lemma tablesFold_shape (li : List (String × Nat)) :
    ∀ (tables : List TableDefinition) (bc : Str) (toff : List (String × Nat)) (off : Nat)
      (bc2 : Str) (toff2 : List (String × Nat)),
      tablesFold li tables bc toff off = .ok (bc2, toff2) →
      ∃ app, bc2 = bc ++ app ∧ hasX app = false := by
  intro tables
  induction tables with
  | nil =>
    intro bc toff off bc2 toff2 h
    rw [tablesFold] at h
    cases h
    exact ⟨[], by simp, rfl⟩
  | cons jt rest ih =>
    intro bc toff off bc2 toff2 h
    rw [tablesFold] at h
    split at h
    · exact Except.noConfusion h
    · split at h
      · exact Except.noConfusion h
      · rename_i code heq
        obtain ⟨app2, happ2, hx2⟩ := ih _ _ _ _ _ h
        refine ⟨code ++ app2, ?_, ?_⟩
        · rw [happ2, List.append_assoc]
        · have hc := hasX_tableCode li jt jt.statements code heq
          rw [hasX] at hc hx2
          rw [hasX, List.any_append, hc, hx2]
          rfl

lemma tablesFold_domain (li : List (String × Nat)) :
    ∀ (tables : List TableDefinition) (bc : Str) (toff : List (String × Nat)) (off : Nat)
      (bc2 : Str) (toff2 : List (String × Nat)),
      tablesFold li tables bc toff off = .ok (bc2, toff2) →
      ∀ name : String,
        (name ∈ tables.map (fun t => t.name) ∨ (lookupStr toff name).isSome = true) →
        (lookupStr toff2 name).isSome = true := by
  intro tables
  induction tables with
  | nil =>
    intro bc toff off bc2 toff2 h name hname
    rw [tablesFold] at h
    cases h
    rcases hname with hmem | hsome
    · simp at hmem
    · exact hsome
  | cons jt rest ih =>
    intro bc toff off bc2 toff2 h name hname
    rw [tablesFold] at h
    split at h
    · exact Except.noConfusion h
    · split at h
      · exact Except.noConfusion h
      · refine ih _ _ _ _ _ h name ?_
        rcases hname with hmem | hsome
        · rw [List.map_cons] at hmem
          rcases List.mem_cons.mp hmem with heq2 | hmem2
          · right
            rw [lookupStr_insertStr, heq2]
            simp
          · left
            exact hmem2
        · right
          rw [lookupStr_insertStr]
          by_cases hk : (jt.name == name) = true
          · simp [hk]
          · rw [if_neg (by simp [hk])]
            exact hsome

lemma tablesFold_values_lt (li : List (String × Nat)) :
    ∀ (tables : List TableDefinition) (bc : Str) (toff : List (String × Nat)) (off : Nat)
      (bc2 : Str) (toff2 : List (String × Nat)),
      tablesFold li tables bc toff off = .ok (bc2, toff2) →
      (∀ name o, lookupStr toff name = some o → o < 65536) →
      off + sumSizes tables < 65536 →
      ∀ name o, lookupStr toff2 name = some o → o < 65536 := by
  intro tables
  induction tables with
  | nil =>
    intro bc toff off bc2 toff2 h hold hb name o hlook
    rw [tablesFold] at h
    cases h
    exact hold name o hlook
  | cons jt rest ih =>
    intro bc toff off bc2 toff2 h hold hb name o hlook
    rw [tablesFold] at h
    split at h
    · exact Except.noConfusion h
    · rename_i size hsize
      split at h
      · exact Except.noConfusion h
      · have hsum : sumSizes (jt :: rest) = size + sumSizes rest := by
          rw [sumSizes, List.map_cons, List.sum_cons, hsize]
          rfl
        rw [hsum] at hb
        refine ih _ _ _ _ _ h ?_ (by omega) name o hlook
        intro name2 o2 hl2
        rw [lookupStr_insertStr] at hl2
        by_cases hk : (jt.name == name2) = true
        · rw [if_pos hk] at hl2
          cases hl2
          omega
        · rw [if_neg (by simp [hk])] at hl2
          exact hold name2 o2 hl2

lemma instancesFold_x (toff : List (String × Nat))
    (hb : ∀ name o, lookupStr toff name = some o → o < 65536) :
    ∀ (ins : List Jump) (bc out : Str),
      instancesFold toff ins bc = .ok out →
      ∀ k, out[k]? = some 'x' →
        bc[k]? = some 'x' ∧
        ∀ j ∈ ins, (lookupStr toff j.label).isSome = true →
          k < j.bytecode_index * 2 + 2 ∨ j.bytecode_index * 2 + 6 ≤ k := by
  intro ins
  induction ins with
  | nil =>
    intro bc out h k hk
    rw [instancesFold] at h
    cases h
    refine ⟨hk, ?_⟩
    intro j hj
    exact absurd hj (List.not_mem_nil j)
  | cons j0 rest ih =>
    intro bc out h k hk
    rw [instancesFold] at h
    split at h
    · rename_i o hlook
      split at h
      · rename_i hle
        obtain ⟨hbc', hrest⟩ := ih _ _ h k hk
        have holt : o < 65536 := hb _ _ hlook
        have hpadlen : (pad_n_bytes (hex2 o) 2).length = 4 := pad2_length o holt
        have hpadx : hasX (pad_n_bytes (hex2 o) 2) = false :=
          hasX_pad_n_bytes _ _ (hasX_hex2 o)
        have htl : (bc.take (j0.bytecode_index * 2 + 2)).length = j0.bytecode_index * 2 + 2 := by
          rw [List.length_take]
          omega
        rw [List.append_assoc, List.getElem?_append, htl] at hbc'
        have hkey : bc[k]? = some 'x' ∧
            (k < j0.bytecode_index * 2 + 2 ∨ j0.bytecode_index * 2 + 6 ≤ k) := by
          rcases Nat.lt_or_ge k (j0.bytecode_index * 2 + 2) with hk1 | hk1
          · rw [if_pos hk1, List.getElem?_take, if_pos hk1] at hbc'
            exact ⟨hbc', Or.inl hk1⟩
          · rw [if_neg (by omega), List.getElem?_append, hpadlen] at hbc'
            rcases Nat.lt_or_ge k (j0.bytecode_index * 2 + 6) with hk2 | hk2
            · rw [if_pos (by omega)] at hbc'
              have hmem : 'x' ∈ pad_n_bytes (hex2 o) 2 := mem_of_getElemQ hbc'
              have := List.any_eq_false.mp hpadx 'x' hmem
              simp at this
            · rw [if_neg (by omega), List.getElem?_drop] at hbc'
              have hidx : j0.bytecode_index * 2 + 6 +
                  (k - (j0.bytecode_index * 2 + 2) - 4) = k := by omega
              rw [hidx] at hbc'
              exact ⟨hbc', Or.inr hk2⟩
        refine ⟨hkey.1, ?_⟩
        intro j hj hjsome
        rcases List.mem_cons.mp hj with heqj | hj'
        · rw [heqj]
          exact hkey.2
        · exact hrest j hj' hjsome
      · exact Except.noConfusion h
    · rename_i hlook
      obtain ⟨hbc, hrest⟩ := ih _ _ h k hk
      refine ⟨hbc, ?_⟩
      intro j hj hjsome
      rcases List.mem_cons.mp hj with heqj | hj'
      · rw [heqj] at hjsome
        rw [hlook] at hjsome
        exact absurd hjsome (by simp)
      · exact hrest j hj' hjsome

/-- C6 (amended): on success the final bytecode contains no `xxxx`
placeholder, provided every `__tablestart` instance names a declared table;
without that proviso a placeholder survives in an `Ok` result (see the
counterexample).  The remaining hypotheses pin down the well-formed shape
the expander gives the finalizer's input: every placeholder character of
the assembled code lies inside the address slot of some table instance,
and the table offsets fit in the two patched bytes. -/
theorem c6_no_placeholder_amended :
    ∀ (res : BytecodeRes) (contract : Contract) (out : Str),
      (∀ j ∈ res.table_instances, j.label ∈ contract.tables.map (fun t => t.name)) →
      (∀ k, k < (resCode res).length → (resCode res)[k]? = some 'x' →
        ∃ j ∈ res.table_instances,
          j.bytecode_index * 2 + 2 ≤ k ∧ k < j.bytecode_index * 2 + 6) →
      (resCode res).length / 2 + sumSizes contract.tables < 65536 →
      gen_table_bytecode res contract = .ok out →
      containsXXXX out = false := by
  intro res contract out hdom hx hbound hok
  unfold gen_table_bytecode at hok
  split at hok
  · exact Except.noConfusion hok
  · split at hok
    · exact Except.noConfusion hok
    · rename_i bc2 toff heqtf
      obtain ⟨app, happ, happx⟩ :=
        tablesFold_shape res.label_indices contract.tables _ [] _ _ _ heqtf
      have hvals : ∀ name o, lookupStr toff name = some o → o < 65536 := by
        refine tablesFold_values_lt res.label_indices contract.tables _ [] _ _ _ heqtf ?_ hbound
        intro name o hl
        exact absurd hl (by simp [lookupStr])
      have hdom2 : ∀ j ∈ res.table_instances, (lookupStr toff j.label).isSome = true := by
        intro j hj
        exact tablesFold_domain res.label_indices contract.tables _ [] _ _ _ heqtf j.label
          (Or.inl (hdom j hj))
      apply containsXXXX_eq_false
      rw [hasX, List.any_eq_false]
      intro c hc hcx
      have hceq : c = 'x' := by simpa using hcx
      subst hceq
      obtain ⟨k, hk⟩ := List.mem_iff_getElem?.mp hc
      obtain ⟨hbc2, hexcl⟩ := instancesFold_x toff hvals res.table_instances bc2 out hok k hk
      rw [happ, List.getElem?_append] at hbc2
      by_cases hkl : k < (resCode res).length
      · rw [if_pos hkl] at hbc2
        obtain ⟨j, hj, hcov1, hcov2⟩ := hx k hkl hbc2
        have hjw := hexcl j hj (hdom2 j hj)
        omega
      · rw [if_neg hkl] at hbc2
        have hmem : 'x' ∈ app := mem_of_getElemQ hbc2
        have := List.any_eq_false.mp happx 'x' hmem
        simp at this

/-- BytecodeRes of the packed-table scenario S5 fed to the finalizer:
a `__tablestart(T)` placeholder at offset 0 and two labels at 3 and 4. -/
def s5Res : BytecodeRes :=
  ⟨[(0, S "61xxxx"), (3, S "5b"), (4, S "5b")], [("lbl_a", 3), ("lbl_b", 4)], [], [⟨"T", 0⟩]⟩

/-- Contract of scenario S5: one packed table T with two label entries. -/
def s5Contract : Contract :=
  ⟨[], [], [⟨"T", .jumpTablePacked, 4, [⟨.labelCall "lbl_a"⟩, ⟨.labelCall "lbl_b"⟩]⟩]⟩

/-- Witness for C6's amended statement on scenario S5: the finalized
bytecode `6100055b5b00030004` contains no placeholder. -/
theorem c6_no_placeholder_amended_witness :
    containsXXXX (S "6100055b5b00030004") = false :=
  c6_no_placeholder_amended s5Res s5Contract (S "6100055b5b00030004")
    (by decide) (by decide) (by decide) (by rfl)

/-- MAIN whose body is `__tablestart` of an undeclared table. -/
def tsMain : MacroDefinition :=
  ⟨"MAIN", [], [⟨.statement ⟨.builtinFunctionCall ⟨.tablestart, [some "NOPE"]⟩⟩⟩]⟩

/-- Contract holding only `tsMain` and declaring no tables. -/
def tsContract : Contract := ⟨[tsMain], [], []⟩

/-- C6 counterexample: codegen succeeds on `MAIN { __tablestart(NOPE) }`
with no declared table named NOPE, returning `Ok "61xxxx"` — the
`__tablestart` placeholder survives unpatched in the final bytecode, which
therefore contains the substring `xxxx`. -/
theorem c6_counterexample :
    generate_main_bytecode 5 tsContract = .ok (S "61xxxx") ∧
    containsXXXX (S "61xxxx") = true :=
  ⟨rfl, rfl⟩

end Huff
